import Mathlib

/-!
Verification of the myllm runtime core against its specification.

The Python sources are shallowly embedded: text is `List Char`, fallible
operations return `Except`, and the stateful LRU cache is explicit state
passing.  Each embedded definition is translated from the corresponding
function in `src/app/...`; the file then proves or refutes the frozen
claims about prompt composition, output sanitization, context budgeting,
the model cache, and SSE streaming.
-/

set_option maxHeartbeats 1000000

/-- Text is modelled as a list of characters (Python `str`). -/
abbrev Text := List Char

/-- Convert a Lean string literal into the `Text` model. -/
def str (s : String) : Text := s.toList

/-- ASCII whitespace, as matched by Python's `str.strip` / regex class for
the inputs considered here. -/
def isWs (c : Char) : Bool :=
  c = ' ' || c = '\t' || c = '\n' || c = '\r' || c = '\x0b' || c = '\x0c'

/-- Lower-casing used to model `re.IGNORECASE` comparisons (ASCII). -/
def lc (c : Char) : Char := c.toLower

/-- Word characters, as in the regex class `\w` (ASCII part). -/
def isWordChar (c : Char) : Bool := c.isAlphanum || c = '_'

/-- Python `text.lstrip()`: drop leading whitespace. -/
def ltrim (cs : Text) : Text := cs.dropWhile isWs

/-- Python: drop trailing whitespace. -/
def rtrim (cs : Text) : Text := (cs.reverse.dropWhile isWs).reverse

/-- Python `text.strip()`: drop whitespace on both ends. -/
def stripWs (cs : Text) : Text := rtrim (ltrim cs)

/-- Python `needle in hay` on strings: substring occurrence test. -/
def containsSub (hay needle : Text) : Bool :=
  hay.tails.any (fun t => needle.isPrefixOf t)

/-- Python `"".join(parts)`. -/
def concatAll (parts : List Text) : Text := parts.foldr (· ++ ·) []

/-- Python `str.replace`-style literal substitution (used to model
`format(content=...)`): replace every occurrence of the nonempty needle
`n0 :: ntail`, scanning left to right without rescanning replacements.
The `skip` counter steps over the tail of a just-matched occurrence, which
keeps the recursion structural. -/
def replaceLitGo (n0 : Char) (ntail repl : Text) : Nat → Text → Text
  | _ + 1, [] => []
  | s + 1, _ :: rest => replaceLitGo n0 ntail repl s rest
  | 0, [] => []
  | 0, c :: rest =>
    if (n0 :: ntail).isPrefixOf (c :: rest) then
      repl ++ replaceLitGo n0 ntail repl ntail.length rest
    else
      c :: replaceLitGo n0 ntail repl 0 rest

/-- Replace every occurrence of the nonempty needle `n0 :: ntail`. -/
def replaceLit (n0 : Char) (ntail : Text) (repl : Text) (cs : Text) : Text :=
  replaceLitGo n0 ntail repl 0 cs

/-- Python `s.split(needle)[0]`: the text before the first occurrence of
the nonempty needle (the whole text when absent). -/
def takeBefore (n0 : Char) (ntail : Text) : Text → Text
  | [] => []
  | c :: rest =>
    if (n0 :: ntail).isPrefixOf (c :: rest) then []
    else c :: takeBefore n0 ntail rest

/-- Substitute `content` for the `{content}` placeholder in a template
format string, as Python `fmt.format(content=content)` does on these
templates. -/
def fmtContent (fmt : Text) (content : Text) : Text :=
  replaceLit '{' (str "content\x7d") content fmt

/-- Everything before the `{content}` placeholder of a format string, as
`fmt.split("{content}")[0]` (the open assistant cue). -/
def beforeContent (fmt : Text) : Text :=
  takeBefore '{' (str "content\x7d") fmt

/-! ## Data model: messages and prompt templates (src/app/core/templates.py) -/

/-- Chat message with a role and content (src/app/models/schemas.py). -/
structure Message where
  role : Text
  content : Text
deriving DecidableEq, Repr

/-- Prompt template record (src/app/core/templates.py, `PromptTemplate`). -/
structure PromptTemplate where
  name : Text
  system_format : Text
  user_format : Text
  assistant_format : Text
  bos_token : Text
  eos_token : Text
  stop_tokens : List Text
deriving DecidableEq, Repr

/-- Format a single message per role, or skip it when the role is not one
of system / user / assistant (the `if role ==` chain with no final else in
`PromptTemplate.build_prompt`). -/
def formatMsg (t : PromptTemplate) (m : Message) : Option Text :=
  if m.role = str "system" then some (fmtContent t.system_format m.content)
  else if m.role = str "user" then some (fmtContent t.user_format m.content)
  else if m.role = str "assistant" then some (fmtContent t.assistant_format m.content)
  else none

/-- Python `if messages and messages[-1]["role"] != "assistant"`: whether
the open assistant cue is appended after the formatted messages. -/
def needsAssistantCue (messages : List Message) : Bool :=
  match messages.getLast? with
  | none => false
  | some m => decide (m.role ≠ str "assistant")

/-- Template-level prompt building (`PromptTemplate.build_prompt` in
src/app/core/templates.py): optional BOS, the role-formatted messages in
order, then the assistant cue (`assistant_format.split("{content}")[0]`)
when the final message role is not assistant. -/
def PromptTemplate.build_prompt (t : PromptTemplate) (messages : List Message) : Text :=
  let parts :=
    (if t.bos_token ≠ [] then [t.bos_token] else [])
      ++ messages.filterMap (formatMsg t)
      ++ (if needsAssistantCue messages then [beforeContent t.assistant_format] else [])
  concatAll parts

/-- LLaMA-1/2 family template (registry entry "llama"). -/
def llamaT : PromptTemplate :=
  { name := str "llama"
    system_format := str "<<SYS>>\n\x7bcontent\x7d\n<</SYS>>\n\n"
    user_format := str "[INST] \x7bcontent\x7d [/INST]"
    assistant_format := str "\x7bcontent\x7d</s>"
    bos_token := str "<s>"
    eos_token := str "</s>"
    stop_tokens := [str "</s>", str "[INST]"] }

/-- LLaMA 3 family template (registry entry "llama3"). -/
def llama3T : PromptTemplate :=
  { name := str "llama3"
    system_format := str "<|start_header_id|>system<|end_header_id|>\n\n\x7bcontent\x7d<|eot_id|>"
    user_format := str "<|start_header_id|>user<|end_header_id|>\n\n\x7bcontent\x7d<|eot_id|>"
    assistant_format := str "<|start_header_id|>assistant<|end_header_id|>\n\n\x7bcontent\x7d<|eot_id|>"
    bos_token := str "<|begin_of_text|>"
    eos_token := str "<|eot_id|>"
    stop_tokens := [str "<|eot_id|>"] }

/-- Mistral family template (registry entry "mistral"). -/
def mistralT : PromptTemplate :=
  { name := str "mistral"
    system_format := str "<<SYS>>\n\x7bcontent\x7d\n<</SYS>>\n\n"
    user_format := str "[INST] \x7bcontent\x7d [/INST]"
    assistant_format := str "\x7bcontent\x7d</s>"
    bos_token := str "<s>"
    eos_token := str "</s>"
    stop_tokens := [str "</s>"] }

/-- Phi family template (registry entry "phi"). -/
def phiT : PromptTemplate :=
  { name := str "phi"
    system_format := str "### System:\n\x7bcontent\x7d\n\n"
    user_format := str "### Instruction:\n\x7bcontent\x7d\n\n"
    assistant_format := str "### Response:\n\x7bcontent\x7d\n\n"
    bos_token := str ""
    eos_token := str ""
    stop_tokens := [str "###"] }

/-- Qwen family template (registry entry "qwen"). -/
def qwenT : PromptTemplate :=
  { name := str "qwen"
    system_format := str "<|im_start|>system\n\x7bcontent\x7d<|im_end|>\n"
    user_format := str "<|im_start|>user\n\x7bcontent\x7d<|im_end|>\n"
    assistant_format := str "<|im_start|>assistant\n\x7bcontent\x7d<|im_end|>\n"
    bos_token := str ""
    eos_token := str "<|im_end|>"
    stop_tokens := [str "<|im_end|>"] }

/-- Template registry `TEMPLATES` (src/app/core/templates.py). -/
def TEMPLATES : List (Text × PromptTemplate) :=
  [(str "llama", llamaT), (str "llama3", llama3T), (str "mistral", mistralT),
   (str "phi", phiT), (str "qwen", qwenT)]

/-- Registry lookup `get_template`: fails (returns none) for an unknown
family instead of guessing. -/
def get_template (family : Text) : Option PromptTemplate :=
  TEMPLATES.lookup family

/-! ## Prompt composer with hard guards (src/app/core/prompt.py) -/

/-- Error outcomes of `PromptBuilder.build_prompt`: the empty-messages
ValueError and the three RuntimeError control-token guards. -/
inductive BuildError where
  | emptyMessages
  | bosLeak
  | eosLeak
  | llama3BosLeak
deriving DecidableEq, Repr

/-- Composer-level prompt building (`PromptBuilder.build_prompt` in
src/app/core/prompt.py): delegate to the template, then run the hard
guards on the lstripped prompt — reject when `<s>` starts it or occurs in
it, when `</s>` occurs in it, or when `<|begin_of_text|>` occurs in it. -/
def build_prompt_checked (t : PromptTemplate) (messages : List Message) :
    Except BuildError Text :=
  if messages = [] then .error .emptyMessages
  else
    let prompt := t.build_prompt messages
    let stripped := ltrim prompt
    if (str "<s>").isPrefixOf stripped || containsSub stripped (str "<s>") then
      .error .bosLeak
    else if containsSub stripped (str "</s>") then
      .error .eosLeak
    else if containsSub stripped (str "<|begin_of_text|>") then
      .error .llama3BosLeak
    else
      .ok prompt

deriving instance DecidableEq for Except

/-! ## Token counting and context budgeting (src/app/engine/tokenizer.py) -/

/-- Token-count approximation `Tokenizer.count_tokens`:
`max(1, len(text) // 4 + 3)`. -/
def count_tokens (text : Text) : Nat :=
  max 1 (text.length / 4 + 3)

/-- Per-message cost used throughout `estimate_trimmed_messages`:
content tokens plus the fixed overhead 7. -/
def msgCost (m : Message) : Nat := count_tokens m.content + 7

/-- Backward admission loop of `estimate_trimmed_messages`: walk the
reversed earlier conversation, admit a message while the accumulated cost
stays within `avail`, and stop at the first rejection.  Returns the
admitted messages in reversed (scan) order. -/
def admitRev (avail : Int) (cur : Int) : List Message → List Message
  | [] => []
  | m :: rest =>
    if cur + (msgCost m : Int) ≤ avail then m :: admitRev avail (cur + (msgCost m : Int)) rest
    else []

/-- Context budgeter `Tokenizer.estimate_trimmed_messages`: keep system
messages, then the last non-system message, then as many recent earlier
non-system messages as fit; if the system messages alone exhaust the
budget, return only the first system message. -/
def estimate_trimmed_messages (messages : List Message) (max_tokens : Int) : List Message :=
  if messages = [] then []
  else
    let system_messages := messages.filter (fun m => m.role = str "system")
    let conversation_messages := messages.filter (fun m => ¬ m.role = str "system")
    let system_tokens : Nat := (system_messages.map msgCost).sum
    let available_tokens : Int := max_tokens - (system_tokens : Int)
    if available_tokens ≤ 0 then
      if system_messages ≠ [] then system_messages.take 1 else []
    else
      match conversation_messages.getLast? with
      | none => system_messages
      | some last_message =>
        let last_message_tokens := msgCost last_message
        if (last_message_tokens : Int) > available_tokens then
          system_messages ++ [last_message]
        else
          let trimmed_conversation :=
            (admitRev available_tokens (last_message_tokens : Int)
              conversation_messages.dropLast.reverse).reverse
          system_messages ++ (trimmed_conversation ++ [last_message])

/-! ## Model cache with LRU eviction (src/app/services/model_loader.py) -/

/-- Eviction loop of `get_or_load_model`: while the cache exceeds
`maxModels`, unload the least-recently-used entry (the front of the
`OrderedDict`). -/
def evictLoop (maxModels : Nat) : List String → List String
  | [] => []
  | n :: rest => if (n :: rest).length > maxModels then evictLoop maxModels rest else n :: rest

/-- Successful `ModelLoader.get_or_load_model` acting on the cache key
order (front = least recently used, back = most recently used): a hit is
moved to the back (`move_to_end`); a miss is appended and then the
eviction loop runs. -/
def get_or_load_model (maxModels : Nat) (cache : List String) (name : String) : List String :=
  if name ∈ cache then (cache.erase name) ++ [name]
  else evictLoop maxModels (cache ++ [name])

/-- Cache key order after a sequence of successful `get_or_load_model`
calls, starting from an empty cache. -/
def runLoads (maxModels : Nat) (names : List String) : List String :=
  names.foldl (get_or_load_model maxModels) []

/-! ## SSE conversion of a token stream (src/app/engine/streaming.py) -/

/-- Payload of one SSE event from `stream_tokens_as_sse`, with an optional
field for each JSON key the code may attach. -/
structure SSEEvent where
  done : Bool
  token : Option String := none
  full_text : Option String := none
  token_count : Option Nat := none
  session_id : Option String := none
  error : Option String := none
deriving DecidableEq, Repr

/-- The `stream_tokens_as_sse` conversion: the generator is modelled as
the list of tokens it yields followed by an optional raised exception.
Each token yields a `done:false` event; a normal end yields the final
event with `full_text`/`token_count` (and `session_id` when truthy); an
exception yields the single error event and the stream closes. -/
def stream_tokens_as_sse (tokens : List String) (exc : Option String)
    (session_id : Option String) : List SSEEvent :=
  (tokens.map fun t => { done := false, token := some t })
    ++ match exc with
      | some e => [{ done := true, error := some e }]
      | none =>
        [{ done := true
           full_text := some (String.join tokens)
           token_count := some tokens.length
           session_id := match session_id with
             | some s => if s = "" then none else some s
             | none => none }]

/-! ## Output sanitizer (src/app/engine/sanitizer.py)

The `strip_patterns` regex list is embedded as a closed pattern type with
a deterministic matcher per pattern shape.  All patterns are matched with
`re.IGNORECASE`, modelled by lower-cased character comparison (exact for
the ASCII texts considered).  For each shape the regex needs no
backtracking: after every maximal whitespace munch the next element starts
with a non-whitespace character, and the role alternatives are not
prefixes of one another, so greedy matching is the regex semantics. -/

/-- Case-insensitive literal match at the head: returns the consumed
actual characters and the rest. -/
def takeCI : Text → Text → Option (Text × Text)
  | [], cs => some ([], cs)
  | _ :: _, [] => none
  | p :: ps, c :: cs =>
    if lc c = lc p then
      match takeCI ps cs with
      | some (a, r) => some (c :: a, r)
      | none => none
    else none

/-- Maximal whitespace munch: the regex `\s*` (consumed, rest). -/
def spanWs (cs : Text) : Text × Text := (cs.takeWhile isWs, cs.dropWhile isWs)

/-- First alternative of a role group that matches at the head. -/
def takeRole : List Text → Text → Option (Text × Text)
  | [], _ => none
  | a :: rest, cs =>
    match takeCI a cs with
    | some r => some r
    | none => takeRole rest cs

/-- Word-boundary test for the regex `\b` before a word character: the
previous character (none at the string start) must not be a word
character. -/
def boundaryBefore (prev : Option Char) : Bool :=
  match prev with
  | none => true
  | some c => ¬ isWordChar c

/-- Word-boundary test for `\b` after a word character: the next character
(none at the string end) must not be a word character. -/
def boundaryAfter (rest : Text) : Bool :=
  match rest with
  | [] => true
  | c :: _ => ¬ isWordChar c

/-- The pattern shapes occurring in `OutputSanitizer.strip_patterns`.
`lit` covers the `re.escape`d stop tokens and the fixed literal control
tokens; the other shapes are the non-literal regexes of the list. -/
inductive Pat where
  | lit : Text → Pat
  | imStart : Pat
  | headerRole : Pat
  | hashRole : Pat
  | dupRole : Pat
  | leadingRole : Pat
deriving DecidableEq, Repr

/-- Match one pattern at the current position.  Returns the consumed
characters and the replacement text.  `prev` is the character just before
the position in the scanned string (`none` at the start); it decides the
`\b` of the duplicate-role pattern and the `^` anchor of the leading-role
pattern. -/
def matchPatAt : Pat → Option Char → Text → Option (Text × Text)
  | .lit s, _, cs =>
    (match takeCI s cs with
     | some (a, _) => some (a, [])
     | none => none)
  | .imStart, _, cs =>
    (match takeCI (str "<|im_start|>") cs with
     | none => none
     | some (a1, r1) =>
       let (w1, r2) := spanWs r1
       match takeRole [str "user", str "assistant", str "system"] r2 with
       | none => none
       | some (rl, r3) =>
         let (w2, _) := spanWs r3
         some (a1 ++ w1 ++ rl ++ w2, []))
  | .headerRole, _, cs =>
    (match takeCI (str "<|start_header_id|>") cs with
     | none => none
     | some (a1, r1) =>
       let (w1, r2) := spanWs r1
       match takeRole [str "user", str "assistant", str "system"] r2 with
       | none => none
       | some (rl, r3) =>
         let (w2, r4) := spanWs r3
         match takeCI (str "<|end_header_id|>") r4 with
         | none => none
         | some (a2, _) => some (a1 ++ w1 ++ rl ++ w2 ++ a2, []))
  | .hashRole, _, cs =>
    (match takeCI (str "###") cs with
     | none => none
     | some (a1, r1) =>
       let (w1, r2) := spanWs r1
       match takeRole [str "Instruction", str "Response", str "System"] r2 with
       | none => none
       | some (rl, r3) =>
         match r3 with
         | ':' :: r4 => let (w2, _) := spanWs r4; some (a1 ++ w1 ++ rl ++ [':'] ++ w2, [])
         | _ => none)
  | .dupRole, prev, cs =>
    if boundaryBefore prev then
      match takeRole [str "assistant", str "user", str "system"] cs with
      | none => none
      | some (r1, rest1) =>
        let (w, rest2) := spanWs rest1
        if w = [] then none
        else
          match takeCI r1 rest2 with
          | none => none
          | some (r2, rest3) =>
            if boundaryAfter rest3 then some (r1 ++ w ++ r2, r1) else none
    else none
  | .leadingRole, prev, cs =>
    if prev = none then
      let (w1, r1) := spanWs cs
      match takeRole [str "assistant", str "user", str "system"] r1 with
      | none => none
      | some (rl, r2) =>
        let (w2, r3) := spanWs r2
        match r3 with
        | ':' :: r4 => let (w3, _) := spanWs r4; some (w1 ++ rl ++ w2 ++ [':'] ++ w3, [])
        | _ => some (w1 ++ rl ++ w2, [])
    else none

/-- One `re.sub(pattern, repl, text)` pass: scan left to right, replace
each non-overlapping match, and never rescan emitted replacements.  The
`skip` counter steps over the tail of a matched region so the recursion is
structural; `prev` tracks the previous character of the scanned string. -/
def subPatGo (p : Pat) : Nat → Option Char → Text → Text
  | _ + 1, _, [] => []
  | s + 1, _, c :: rest => subPatGo p s (some c) rest
  | 0, _, [] => []
  | 0, prev, c :: rest =>
    match matchPatAt p prev (c :: rest) with
    | some (consumed, repl) =>
      if consumed.length = 0 then c :: subPatGo p 0 (some c) rest
      else repl ++ subPatGo p (consumed.length - 1) (some c) rest
    | none => c :: subPatGo p 0 (some c) rest

/-- Full `re.sub` pass for one pattern over a text. -/
def subPat (p : Pat) (cs : Text) : Text := subPatGo p 0 none cs

/-- Whether `re.search(pattern, text)` finds a match anywhere. -/
def hasPatMatchAux (p : Pat) : Option Char → Text → Bool
  | _, [] => false
  | prev, c :: rest => (matchPatAt p prev (c :: rest)).isSome || hasPatMatchAux p (some c) rest

/-- The `re.search` test used by `sanitize_token`. -/
def hasPatMatch (p : Pat) (cs : Text) : Bool := hasPatMatchAux p none cs

/-- Whether `re.fullmatch(pattern, token)` succeeds: a match at the start
that consumes the whole token. -/
def fullmatchPat (p : Pat) (cs : Text) : Bool :=
  match matchPatAt p none cs with
  | some (consumed, _) => consumed.length = cs.length
  | none => false

/-- The `strip_patterns` list built by `OutputSanitizer.__init__`: the
escaped stop tokens first, then the fixed control-token patterns in the
order they appear in the source. -/
def strip_patterns (stop_tokens : List Text) : List Pat :=
  stop_tokens.map .lit ++
    [.imStart, .lit (str "<|im_end|>"),
     .lit (str "[INST]"), .lit (str "[/INST]"),
     .lit (str "<<SYS>>"), .lit (str "<</SYS>>"),
     .lit (str "<s>"), .lit (str "</s>"),
     .lit (str "<|begin_of_text|>"), .lit (str "<|end_of_text|>"),
     .headerRole, .lit (str "<|eot_id|>"),
     .hashRole, .dupRole, .leadingRole]

/-- The newline clean-up `re.sub(r'\n\n\n+', '\n\n', text)`: each maximal
run of three or more newlines becomes exactly two.  Structural via a skip
counter, like `subPatGo`. -/
def collapseNlGo : Nat → Text → Text
  | _ + 1, [] => []
  | s + 1, _ :: rest => collapseNlGo s rest
  | 0, [] => []
  | 0, c :: rest =>
    if c = '\n' ∧ rest.take 2 = ['\n', '\n'] then
      '\n' :: '\n' :: collapseNlGo (2 + ((rest.drop 2).takeWhile (· = '\n')).length) rest
    else c :: collapseNlGo 0 rest

/-- Collapse runs of three or more newlines to two. -/
def collapseNl (cs : Text) : Text := collapseNlGo 0 cs

/-- Whole-text sanitization `OutputSanitizer.sanitize`: apply every
strip pattern in order, collapse newline runs, then strip. -/
def sanitize (stop_tokens : List Text) (text : Text) : Text :=
  let t := (strip_patterns stop_tokens).foldl (fun acc p => subPat p acc) text
  stripWs (collapseNl t)

/-- Rolling-buffer stop detection `OutputSanitizer.should_stop`: append
the token to the buffer and report whether any stop token occurs in the
concatenation of the last 20 buffered tokens.  Returns the grown buffer
and the verdict. -/
def should_stop (stop_tokens : List Text) (buffer : List Text) (token : Text) :
    List Text × Bool :=
  let buffer' := buffer ++ [token]
  let combined := concatAll (buffer'.drop (buffer'.length - 20))
  (buffer', stop_tokens.any (fun s => containsSub combined s))

/-- Outcome of `OutputSanitizer.sanitize_token` for one token: the stop
signal (the `None` that `should_stop` triggers), suppression (the other
`None` returns), or an emitted residue. -/
inductive TokOut where
  | stop
  | suppressed
  | emit : Text → TokOut
deriving DecidableEq, Repr

/-- Streaming sanitization `OutputSanitizer.sanitize_token`: stop check
first; then full-match suppression; then the conditional per-pattern
substitutions; finally suppression of tokens that stripped to nothing.
Returns the grown buffer with the outcome. -/
def sanitize_token (stop_tokens : List Text) (buffer : List Text) (token : Text) :
    List Text × TokOut :=
  let pats := strip_patterns stop_tokens
  match should_stop stop_tokens buffer token with
  | (buffer', true) => (buffer', .stop)
  | (buffer', false) =>
    if pats.any (fun p => fullmatchPat p token) then (buffer', .suppressed)
    else
      let cleaned := pats.foldl
        (fun acc p => if hasPatMatch p acc then subPat p acc else acc) token
      if stripWs cleaned = [] ∧ ¬ stripWs token = [] then (buffer', .suppressed)
      else (buffer', .emit cleaned)

/-- Drive `sanitize_token` over a token stream until it signals stop (the
caller terminates generation there) or the stream ends.  Returns the
emitted residues, the raw tokens consumed without a stop signal, and
whether the stop signal was raised. -/
def runStream (stop_tokens : List Text) (buffer : List Text) :
    List Text → List Text × List Text × Bool
  | [] => ([], [], false)
  | t :: ts =>
    match sanitize_token stop_tokens buffer t with
    | (_, .stop) => ([], [], true)
    | (buffer', .suppressed) =>
      let (e, p, s) := runStream stop_tokens buffer' ts
      (e, t :: p, s)
    | (buffer', .emit c) =>
      let (e, p, s) := runStream stop_tokens buffer' ts
      (c :: e, t :: p, s)

/-! ## General lemmas about the text primitives -/

theorem containsSub_iff (hay needle : Text) :
    containsSub hay needle = true ↔ needle <:+: hay := by
  unfold containsSub
  rw [List.any_eq_true]
  constructor
  · rintro ⟨t, ht, hp⟩
    exact List.infix_iff_prefix_suffix.mpr
      ⟨t, List.isPrefixOf_iff_prefix.mp hp, (List.mem_tails _ _).mp ht⟩
  · intro h
    rcases List.infix_iff_prefix_suffix.mp h with ⟨t, hp, hs⟩
    exact ⟨t, (List.mem_tails _ _).mpr hs, List.isPrefixOf_iff_prefix.mpr hp⟩

theorem ltrim_cons_of_not_ws {c : Char} (h : isWs c = false) (rest : Text) :
    ltrim (c :: rest) = c :: rest := by
  simp [ltrim, List.dropWhile_cons, h]

theorem concatAll_cons (a : Text) (l : List Text) :
    concatAll (a :: l) = a ++ concatAll l := rfl

/-! ## Claim C1: prompt composition for families with a BOS token -/

/-- A template whose `bos_token` is nonempty always produces a prompt that
starts with that token. -/
theorem build_prompt_bos_starts (t : PromptTemplate) (msgs : List Message)
    (h : t.bos_token ≠ []) :
    ∃ r, t.build_prompt msgs = t.bos_token ++ r := by
  unfold PromptTemplate.build_prompt
  rw [if_pos h]
  exact ⟨_, rfl⟩

/-- C1: the claim says the composer succeeds for every family whose
template defines a non-empty `bos_token` and returns a prompt beginning
with it.  The code contradicts this (and its own `MUST NEVER TRIGGER`
guard comments): the post-build guards reject `<s>` / `</s>` /
`<|begin_of_text|>` anywhere in the prompt, including the occurrence the
template itself placed, so `build_prompt` raises for llama, mistral and
llama3 on every message list. -/
theorem c1_bos_families_always_error :
    build_prompt_checked llamaT [⟨str "user", str "Hello"⟩] = .error .bosLeak ∧
    build_prompt_checked mistralT [⟨str "user", str "Hello"⟩] = .error .bosLeak ∧
    build_prompt_checked llama3T [⟨str "user", str "Hello"⟩] = .error .llama3BosLeak := by
  decide

/-! ## Claim C8: leak guard for llama3 -/

/-- A llama3 prompt always contains the llama3 BOS control token (the
template puts it first and no whitespace precedes it). -/
theorem llama3_prompt_contains_bos (msgs : List Message) :
    containsSub (ltrim (llama3T.build_prompt msgs)) (str "<|begin_of_text|>") = true := by
  obtain ⟨r, hr⟩ := build_prompt_bos_starts llama3T msgs (by decide)
  have hcons : llama3T.bos_token ++ r = '<' :: (str "|begin_of_text|>" ++ r) := rfl
  rw [hr, hcons, ltrim_cons_of_not_ws (by decide)]
  rw [containsSub_iff]
  exact (List.prefix_append (str "<|begin_of_text|>") r).isInfix

/-- C8: for family llama3, building a prompt from a non-empty message
list one of whose contents contains the raw `<s>` control token fails
with an error — a prompt is never returned (the hard guards never let a
leaked token through). -/
theorem c8_llama3_leak_fails (msgs : List Message) (h1 : msgs ≠ [])
    (_h2 : ∃ m ∈ msgs, containsSub m.content (str "<s>") = true) :
    ∃ e, build_prompt_checked llama3T msgs = Except.error e := by
  unfold build_prompt_checked
  rw [if_neg h1]
  simp only []
  split
  · exact ⟨_, rfl⟩
  · split
    · exact ⟨_, rfl⟩
    · split
      · exact ⟨_, rfl⟩
      · next hg3 =>
        exact absurd (llama3_prompt_contains_bos msgs) (by simpa using hg3)

/-- Witness for C8 at the spec's own example input. -/
theorem c8_witness :
    ([⟨str "user", str "<s>boom</s>"⟩] : List Message) ≠ [] ∧
    (∃ m ∈ ([⟨str "user", str "<s>boom</s>"⟩] : List Message),
        containsSub m.content (str "<s>") = true) ∧
    ∃ e, build_prompt_checked llama3T [⟨str "user", str "<s>boom</s>"⟩] = Except.error e :=
  ⟨by decide, by decide,
   c8_llama3_leak_fails [⟨str "user", str "<s>boom</s>"⟩] (by decide) (by decide)⟩

/-! ## Claim C9: SSE event shape -/

/-- C9: a generator that yields its tokens and then raises produces
exactly one `done:false` event per token (carrying that token) followed by
exactly one terminal event whose payload has `done:true` and an error
field, and nothing further; a generator that completes normally ends with
exactly one `done:true` event whose error field is absent. -/
theorem c9_sse_events (tokens : List String) (e : String) (sid : Option String) :
    (stream_tokens_as_sse tokens (some e) sid).length = tokens.length + 1 ∧
    (stream_tokens_as_sse tokens (some e) sid).take tokens.length =
      tokens.map (fun t => { done := false, token := some t }) ∧
    (stream_tokens_as_sse tokens (some e) sid).getLast? =
      some { done := true, error := some e } ∧
    (stream_tokens_as_sse tokens none sid).length = tokens.length + 1 ∧
    (stream_tokens_as_sse tokens none sid).take tokens.length =
      tokens.map (fun t => { done := false, token := some t }) ∧
    ∃ fin, (stream_tokens_as_sse tokens none sid).getLast? = some fin ∧
      fin.done = true ∧ fin.error = none := by
  unfold stream_tokens_as_sse
  refine ⟨?_, ?_, ?_, ?_, ?_, ?_⟩
  · simp
  · have h := List.take_left (tokens.map fun t => ({ done := false, token := some t } : SSEEvent))
      [({ done := true, error := some e } : SSEEvent)]
    simpa using h
  · rw [List.getLast?_append_of_ne_nil _ (by simp)]
    rfl
  · simp
  · have h := List.take_left (tokens.map fun t => ({ done := false, token := some t } : SSEEvent))
      [({ done := true
          full_text := some (String.join tokens)
          token_count := some tokens.length
          session_id := match sid with
            | some s => if s = "" then none else some s
            | none => none } : SSEEvent)]
    simpa using h
  · rw [List.getLast?_append_of_ne_nil _ (by simp)]
    exact ⟨_, rfl, rfl, rfl⟩

/-! ## Claim C2: LRU cache bound and most-recently-used key -/

theorem evictLoop_suffix (m : Nat) (l : List String) : evictLoop m l <:+ l := by
  induction l with
  | nil => exact List.suffix_refl _
  | cons n rest ih =>
    unfold evictLoop
    split
    · exact ih.trans (List.suffix_cons n rest)
    · exact List.suffix_refl _

theorem evictLoop_length_le (m : Nat) (l : List String) : (evictLoop m l).length ≤ m := by
  induction l with
  | nil => simpa [evictLoop] using Nat.zero_le m
  | cons n rest ih =>
    unfold evictLoop
    split
    · exact ih
    · omega

theorem evictLoop_ne_nil (m : Nat) (hm : 1 ≤ m) :
    ∀ l : List String, l ≠ [] → evictLoop m l ≠ [] := by
  intro l
  induction l with
  | nil => intro h; exact absurd rfl h
  | cons n rest ih =>
    intro _
    unfold evictLoop
    split
    · next hlen =>
      apply ih
      intro hrest
      rw [hrest] at hlen
      simp at hlen
      omega
    · simp

theorem getLast?_of_suffix {s l : List String} (h : s <:+ l) (hs : s ≠ []) :
    l.getLast? = s.getLast? := by
  obtain ⟨t, rfl⟩ := h
  exact List.getLast?_append_of_ne_nil t hs

/-- One successful cache access with capacity at least 1, starting from a
cache within its bound: the requested name ends up most recently used and
the bound still holds. -/
theorem get_or_load_step (m : Nat) (hm : 1 ≤ m) (cache : List String)
    (hlen : cache.length ≤ m) (n : String) :
    (get_or_load_model m cache n).getLast? = some n ∧
    (get_or_load_model m cache n).length ≤ m := by
  unfold get_or_load_model
  split
  · next hmem =>
    constructor
    · rw [List.getLast?_append_of_ne_nil _ (by simp)]
      rfl
    · have : (cache.erase n).length = cache.length - 1 := List.length_erase_of_mem hmem
      have h1 : 1 ≤ cache.length := List.length_pos.mpr (List.ne_nil_of_mem hmem)
      simp only [List.length_append, this, List.length_cons, List.length_nil]
      omega
  · constructor
    · rw [← getLast?_of_suffix (evictLoop_suffix m (cache ++ [n]))
        (evictLoop_ne_nil m hm _ (by simp))]
      rw [List.getLast?_append_of_ne_nil _ (by simp)]
      rfl
    · exact evictLoop_length_le m _

/-- C2 (amended with capacity at least 1): after any non-empty sequence of
successful `get_or_load_model` calls, the last requested name is the
most-recently-used cache key and the cache size is bounded by
`max_loaded_models`.  Quantifying over every sequence covers the state
after each individual call. -/
theorem c2_lru_invariant (m : Nat) (hm : 1 ≤ m) (ns : List String) (hne : ns ≠ []) :
    (runLoads m ns).getLast? = some (ns.getLast hne) ∧ (runLoads m ns).length ≤ m := by
  suffices h : ∀ (ns : List String) (hne : ns ≠ []) (init : List String),
      init.length ≤ m →
      ((ns.foldl (get_or_load_model m) init).getLast? = some (ns.getLast hne) ∧
        (ns.foldl (get_or_load_model m) init).length ≤ m) from
    h ns hne [] (by simp)
  intro ns
  induction ns with
  | nil => intro hne; exact absurd rfl hne
  | cons n rest ih =>
    intro _ init hinit
    have step := get_or_load_step m hm init hinit n
    rcases rest.eq_nil_or_concat with hrest | _
    · subst hrest
      simpa using step
    · have hrne : rest ≠ [] := by
        rename_i hc
        obtain ⟨l, a, rfl⟩ := hc
        simp
      have := ih hrne (get_or_load_model m init n) step.2
      rw [List.foldl_cons, List.getLast_cons hrne]
      exact this

/-- C2 counterexample: with capacity 0 the freshly loaded model is evicted
by its own load, so the last requested name is not a cache key at all. -/
theorem c2_counterexample :
    ¬ ((runLoads 0 ["A"]).getLast? = some "A") := by decide

/-- Witness for C2 at capacity 2 and the eviction scenario of the spec. -/
theorem c2_witness :
    1 ≤ 2 ∧ (["A", "B", "C"] : List String) ≠ [] ∧
    (runLoads 2 ["A", "B", "C"]).getLast? = some "C" ∧
    (runLoads 2 ["A", "B", "C"]).length ≤ 2 := by
  refine ⟨by decide, by decide, ?_⟩
  have h := c2_lru_invariant 2 (by decide) ["A", "B", "C"] (by decide)
  simpa using h

/-! ## Claim C10: unknown roles are skipped at template level -/

theorem filterMap_eraseIdx_of_none {α β : Type} (f : α → Option β) :
    ∀ (l : List α) (i : Nat) (h : i < l.length), f (l.get ⟨i, h⟩) = none →
      (l.eraseIdx i).filterMap f = l.filterMap f := by
  intro l
  induction l with
  | nil => intro i h; simp at h
  | cons a as ih =>
    intro i h hf
    cases i with
    | zero =>
      simp only [List.get] at hf
      simp [List.eraseIdx, List.filterMap_cons, hf]
    | succ j =>
      have hj : j < as.length := by simpa using h
      simp only [List.get] at hf
      simp only [List.eraseIdx, List.filterMap_cons]
      rw [ih j hj hf]

/-- C10: a message whose role is none of system / user / assistant
contributes nothing to the template-level prompt and raises no error: as
long as dropping it does not change the open-assistant-turn check (which
looks only at the last message's role), the prompt equals the prompt for
the list with that message removed. -/
theorem c10_unknown_role_skipped (t : PromptTemplate) (msgs : List Message) (i : Nat)
    (h : i < msgs.length)
    (hrole : (msgs.get ⟨i, h⟩).role ∉ [str "system", str "user", str "assistant"])
    (hcue : needsAssistantCue (msgs.eraseIdx i) = needsAssistantCue msgs) :
    t.build_prompt (msgs.eraseIdx i) = t.build_prompt msgs := by
  have hf : formatMsg t (msgs.get ⟨i, h⟩) = none := by
    simp only [List.mem_cons, List.mem_singleton, not_or] at hrole
    unfold formatMsg
    rw [if_neg hrole.1, if_neg hrole.2.1, if_neg hrole.2.2.1]
  unfold PromptTemplate.build_prompt
  rw [filterMap_eraseIdx_of_none (formatMsg t) msgs i h hf, hcue]

/-- Witness for C10: a "tool" message in the middle of a llama
conversation is dropped without changing the prompt. -/
theorem c10_witness :
    (⟨str "tool", str "X"⟩ : Message).role ∉ [str "system", str "user", str "assistant"] ∧
    llamaT.build_prompt
        (([⟨str "user", str "Hi"⟩, ⟨str "tool", str "X"⟩,
           ⟨str "user", str "Yo"⟩] : List Message).eraseIdx 1) =
      llamaT.build_prompt
        [⟨str "user", str "Hi"⟩, ⟨str "tool", str "X"⟩, ⟨str "user", str "Yo"⟩] :=
  ⟨by decide,
   c10_unknown_role_skipped llamaT
     [⟨str "user", str "Hi"⟩, ⟨str "tool", str "X"⟩, ⟨str "user", str "Yo"⟩]
     1 (by decide) (by decide) (by decide)⟩

/-! ## Claim C5: the spec's stop-token defense scenario -/

/-- C5 counterexample: on the spec's token stream the emitted
concatenation is not `"Hello "` — the straddled fragment `"</"` was
already emitted before the rolling buffer could see the full stop
token. -/
theorem c5_counterexample :
    concatAll (runStream [str "</s>"] []
        [str "Hel", str "lo", str " ", str "</", str "s>", str " ignored"]).1 ≠
      str "Hello " := by decide

/-- C5 amended: the sanitizer emits `"Hel"`, `"lo"`, `" "`, and the
partial fragment `"</"`; the stop signal is raised at `"s>"` (which is not
emitted) and `" ignored"` is never processed, so the emitted concatenation
is `"Hello </"`. -/
theorem c5_amended_trace :
    runStream [str "</s>"] []
        [str "Hel", str "lo", str " ", str "</", str "s>", str " ignored"] =
      ([str "Hel", str "lo", str " ", str "</"],
       [str "Hel", str "lo", str " ", str "</"], true) ∧
    concatAll (runStream [str "</s>"] []
        [str "Hel", str "lo", str " ", str "</", str "s>", str " ignored"]).1 =
      str "Hello </" := by decide

/-! ## Claim C3: system and last-message retention in the budgeter -/

/-- C3 counterexample: when the system messages alone reach the budget,
the budgeter returns only the first system message and drops the last
non-system message. -/
theorem c3_counterexample :
    (⟨str "user", str "hi"⟩ : Message) ∉
      estimate_trimmed_messages
        [⟨str "system", str "be nice"⟩, ⟨str "user", str "hi"⟩] 5 := by decide

/-- C3 amended: provided the total system-message cost stays strictly
below the budget, the truncated output contains every system message and
the last non-system message — including when that last message alone
exceeds the remaining budget.  (When the system cost meets or exceeds the
budget the code instead returns just the first system message.) -/
theorem c3_retention (msgs : List Message) (mt : Int) (lm : Message)
    (hlast : (msgs.filter (fun m => ¬ m.role = str "system")).getLast? = some lm)
    (hsys : (((msgs.filter (fun m => m.role = str "system")).map msgCost).sum : Int) < mt) :
    (∀ m ∈ msgs, m.role = str "system" → m ∈ estimate_trimmed_messages msgs mt) ∧
    lm ∈ estimate_trimmed_messages msgs mt := by
  have hne : msgs ≠ [] := by
    intro h
    subst h
    simp at hlast
  simp only [estimate_trimmed_messages]
  rw [if_neg hne, if_neg (by omega)]
  constructor
  · intro m hm hrole
    have hmem : m ∈ msgs.filter (fun m => m.role = str "system") :=
      List.mem_filter.mpr ⟨hm, by simp [hrole]⟩
    split
    · exact hmem
    · split
      · exact List.mem_append_left _ hmem
      · exact List.mem_append_left _ hmem
  · split
    · next heq =>
      rw [hlast] at heq
      cases heq
    · next lastm heq =>
      rw [hlast] at heq
      injection heq with h
      subst h
      split
      · simp
      · simp

/-! ## Claim C4: stop tokens in the sanitized stream -/

/-- C4 counterexample: the per-token substitutions can rewrite a raw token
into a stop-token fragment, so the concatenation of emitted residues can
contain a stop token of the active template — here `"</"` then `"<s>s>"`
(whose `<s>` is stripped) emit `"</"` and `"s>"`, together `"</s>"`. -/
theorem c4_counterexample :
    containsSub (concatAll (runStream [str "</s>"] [] [str "</", str "<s>s>"]).1)
      (str "</s>") = true := by decide

/-- Closed form of one `sanitize_token` step. -/
theorem sanitize_token_spec (stops : List Text) (buffer : List Text) (token : Text) :
    sanitize_token stops buffer token =
      (buffer ++ [token],
       if stops.any (fun s =>
           containsSub (concatAll ((buffer ++ [token]).drop ((buffer ++ [token]).length - 20))) s)
       then TokOut.stop
       else if (strip_patterns stops).any (fun p => fullmatchPat p token) then .suppressed
       else
         let cleaned := (strip_patterns stops).foldl
           (fun acc p => if hasPatMatch p acc then subPat p acc else acc) token
         if stripWs cleaned = [] ∧ ¬ stripWs token = [] then .suppressed else .emit cleaned) := by
  simp only [sanitize_token, should_stop]
  cases h : stops.any (fun s =>
      containsSub (concatAll ((buffer ++ [token]).drop ((buffer ++ [token]).length - 20))) s) <;>
    simp [h]
  split
  · rfl
  · split <;> rfl

/-- While no stop is signalled, the raw consumed tokens accumulate into
the rolling buffer, and for streams short enough to fit the 20-token
window their concatenation stays free of every stop token. -/
theorem runStream_raw_no_stop (stops : List Text) (s : Text) (hs : s ∈ stops) :
    ∀ (toks buf : List Text), buf.length + toks.length ≤ 20 →
      containsSub (concatAll buf) s = false →
      containsSub (concatAll (buf ++ (runStream stops buf toks).2.1)) s = false := by
  intro toks
  induction toks with
  | nil =>
    intro buf _ hbuf
    simpa [runStream] using hbuf
  | cons t ts ih =>
    intro buf hlen hbuf
    simp only [List.length_cons] at hlen
    have hdrop : (buf ++ [t]).length - 20 = 0 := by
      simp only [List.length_append, List.length_cons, List.length_nil]
      omega
    have hst := sanitize_token_spec stops buf t
    rw [hdrop, List.drop_zero] at hst
    cases hany : stops.any (fun s' => containsSub (concatAll (buf ++ [t])) s') with
    | true =>
      rw [hany, if_pos rfl] at hst
      simp only [runStream, hst]
      simpa using hbuf
    | false =>
      rw [hany] at hst
      simp only [Bool.false_eq_true, if_false] at hst
      have hnew : containsSub (concatAll (buf ++ [t])) s = false :=
        Bool.eq_false_iff.mpr (List.any_eq_false.mp hany s hs)
      have hlen' : (buf ++ [t]).length + ts.length ≤ 20 := by
        simp only [List.length_append, List.length_cons, List.length_nil]
        omega
      have hrec := ih (buf ++ [t]) hlen' hnew
      have h21 : (runStream stops buf (t :: ts)).2.1 =
          t :: (runStream stops (buf ++ [t]) ts).2.1 := by
        simp only [runStream, hst]
        split
        · next heq =>
          exfalso
          simp only [Prod.mk.injEq] at heq
          have h2 := heq.2
          split at h2
          · simp at h2
          · split at h2 <;> simp at h2
        · next heq =>
          simp only [Prod.mk.injEq] at heq
          obtain ⟨h1, -⟩ := heq
          subst h1
          rfl
        · next heq =>
          simp only [Prod.mk.injEq] at heq
          obtain ⟨h1, -⟩ := heq
          subst h1
          rfl
      rw [h21, show buf ++ t :: (runStream stops (buf ++ [t]) ts).2.1 =
          (buf ++ [t]) ++ (runStream stops (buf ++ [t]) ts).2.1 by simp]
      exact hrec

/-- C4 amended: for every non-empty stop token of the active template and
every stream of at most 20 tokens, the concatenation of the raw tokens the
sanitizer consumes without signalling stop contains no occurrence of the
stop token (the rolling-buffer check runs on the raw stream); the emitted
residues themselves, however, can contain it after substitution, as the
counterexample shows. -/
theorem c4_raw_stop_free (stops : List Text) (s : Text) (hs : s ∈ stops) (hs0 : s ≠ [])
    (toks : List Text) (hlen : toks.length ≤ 20) :
    containsSub (concatAll (runStream stops [] toks).2.1) s = false := by
  have hbase : containsSub (concatAll ([] : List Text)) s = false := by
    cases s with
    | nil => exact absurd rfl hs0
    | cons a as => rfl
  have h := runStream_raw_no_stop stops s hs toks [] (by simpa using hlen) hbase
  simpa using h

/-- Witness for C4 on a short harmless stream. -/
theorem c4_witness :
    (str "</s>") ∈ [str "</s>"] ∧ str "</s>" ≠ [] ∧
    ([str "Hi", str " there"] : List Text).length ≤ 20 ∧
    containsSub (concatAll (runStream [str "</s>"] [] [str "Hi", str " there"]).2.1)
      (str "</s>") = false :=
  ⟨by decide, by decide, by decide,
   c4_raw_stop_free [str "</s>"] (str "</s>") (by decide) (by decide)
     [str "Hi", str " there"] (by decide)⟩

/-! ## Claim C6: budgeter monotonicity -/

/-- The backward admission loop admits a (weakly) longer prefix of the
reversed history when the budget grows. -/
theorem admitRev_mono (a a' : Int) (h : a ≤ a') :
    ∀ (l : List Message) (cur : Int), admitRev a cur l <+: admitRev a' cur l := by
  intro l
  induction l with
  | nil => intro cur; exact List.nil_prefix
  | cons m rest ih =>
    intro cur
    unfold admitRev
    by_cases hc : cur + (msgCost m : Int) ≤ a
    · rw [if_pos hc, if_pos (le_trans hc h)]
      exact List.cons_prefix_cons.mpr ⟨rfl, ih _⟩
    · rw [if_neg hc]
      exact List.nil_prefix

/-- C6: raising the token budget can only grow the truncated message
list: the smaller-budget result is a sublist (hence a subset, of no
greater length) of the larger-budget result. -/
theorem c6_budget_monotone (msgs : List Message) (b b' : Int) (hbb : b ≤ b') :
    List.Sublist (estimate_trimmed_messages msgs b) (estimate_trimmed_messages msgs b') ∧
    (estimate_trimmed_messages msgs b).length ≤ (estimate_trimmed_messages msgs b').length ∧
    ∀ m ∈ estimate_trimmed_messages msgs b, m ∈ estimate_trimmed_messages msgs b' := by
  have hsub : List.Sublist (estimate_trimmed_messages msgs b)
      (estimate_trimmed_messages msgs b') := by
    by_cases hnil : msgs = []
    · subst hnil
      simp [estimate_trimmed_messages]
    · simp only [estimate_trimmed_messages]
      rw [if_neg hnil, if_neg hnil]
      set sys := msgs.filter (fun m => m.role = str "system") with hsysdef
      set conv := msgs.filter (fun m => ¬ m.role = str "system") with hconvdef
      set S : Nat := (sys.map msgCost).sum with hSdef
      have hsys1 : List.Sublist (if sys ≠ [] then sys.take 1 else []) sys := by
        split
        · exact List.take_sublist 1 sys
        · exact List.nil_sublist sys
      by_cases h2' : b' - (S : Int) ≤ 0
      · rw [if_pos (by omega : b - (S : Int) ≤ 0), if_pos h2']
      · rw [if_neg h2']
        by_cases h2 : b - (S : Int) ≤ 0
        · rw [if_pos h2]
          cases hconv : conv.getLast? with
          | none => exact hsys1
          | some lm =>
            dsimp only
            split
            · split
              · exact (List.take_sublist 1 sys).trans (List.sublist_append_left sys _)
              · exact (List.take_sublist 1 sys).trans (List.sublist_append_left sys _)
            · split
              · exact List.nil_sublist _
              · exact List.nil_sublist _
        · rw [if_neg h2]
          cases hconv : conv.getLast? with
          | none => exact List.Sublist.refl _
          | some lm =>
            dsimp only
            by_cases h3' : ((msgCost lm : Int) > b' - (S : Int))
            · rw [if_pos (by omega : (msgCost lm : Int) > b - (S : Int)), if_pos h3']
            · rw [if_neg h3']
              by_cases h3 : ((msgCost lm : Int) > b - (S : Int))
              · rw [if_pos h3]
                exact (List.sublist_append_right _ [lm]).append_left sys
              · rw [if_neg h3]
                obtain ⟨q, hq⟩ := admitRev_mono (b - (S : Int)) (b' - (S : Int)) (by omega)
                  conv.dropLast.reverse (msgCost lm : Int)
                have hrev : (admitRev (b' - (S : Int)) (msgCost lm : Int)
                    conv.dropLast.reverse).reverse =
                    q.reverse ++ (admitRev (b - (S : Int)) (msgCost lm : Int)
                      conv.dropLast.reverse).reverse := by
                  rw [← hq, List.reverse_append]
                rw [hrev, List.append_assoc]
                exact (List.sublist_append_right _ _).append_left sys
  exact ⟨hsub, hsub.length_le, fun m hm => hsub.subset hm⟩

/-- Witness for C6 at two concrete budgets. -/
theorem c6_witness :
    (10 : Int) ≤ 20 ∧
    List.Sublist
      (estimate_trimmed_messages
        [⟨str "user", str "hello"⟩, ⟨str "user", str "again"⟩] 10)
      (estimate_trimmed_messages
        [⟨str "user", str "hello"⟩, ⟨str "user", str "again"⟩] 20) :=
  ⟨by decide,
   (c6_budget_monotone [⟨str "user", str "hello"⟩, ⟨str "user", str "again"⟩]
      10 20 (by decide)).1⟩

/-! ## Claim C7: idempotence of whole-text sanitization -/

/-- C7 counterexample: a substitution can create a fresh pattern
occurrence that only a second pass removes, so `sanitize` is not
idempotent: removing the inner `<s>` of `"<s<s>>a"` leaves `"<s>a"`. -/
theorem c7_counterexample :
    sanitize [str "</s>"] (sanitize [str "</s>"] (str "<s<s>>a")) ≠
      sanitize [str "</s>"] (str "<s<s>>a") := by decide

theorem subPatGo_id_of_no_match (p : Pat) :
    ∀ (cs : Text) (prev : Option Char), hasPatMatchAux p prev cs = false →
      subPatGo p 0 prev cs = cs := by
  intro cs
  induction cs with
  | nil => intro prev _; rfl
  | cons c rest ih =>
    intro prev h
    simp only [hasPatMatchAux, Bool.or_eq_false_iff] at h
    have hnone : matchPatAt p prev (c :: rest) = none := by
      cases hm : matchPatAt p prev (c :: rest) with
      | none => rfl
      | some v => rw [hm] at h; simp at h
    simp only [subPatGo, hnone]
    rw [ih (some c) h.2]

theorem foldl_subPat_id :
    ∀ (pats : List Pat) (y : Text), (∀ p ∈ pats, hasPatMatch p y = false) →
      pats.foldl (fun acc p => subPat p acc) y = y := by
  intro pats
  induction pats with
  | nil => intro y _; rfl
  | cons p ps ih =>
    intro y h
    have h0 : subPat p y = y :=
      subPatGo_id_of_no_match p y none (h p (List.mem_cons_self p ps))
    simp only [List.foldl_cons, h0]
    exact ih y (fun q hq => h q (List.mem_cons_of_mem p hq))

theorem collapseNlGo_skip :
    ∀ (s : Nat) (cs : Text), collapseNlGo s cs = collapseNlGo 0 (cs.drop s) := by
  intro s
  induction s with
  | zero => intro cs; rw [List.drop_zero]
  | succ n ih =>
    intro cs
    cases cs with
    | nil => rfl
    | cons c rest =>
      show collapseNlGo n rest = collapseNlGo 0 ((c :: rest).drop (n + 1))
      rw [List.drop_succ_cons, ih]

theorem drop_length_takeWhile (p : Char → Bool) :
    ∀ l : Text, l.drop (l.takeWhile p).length = l.dropWhile p := by
  intro l
  induction l with
  | nil => rfl
  | cons c rest ih =>
    by_cases h : p c = true
    · simp only [List.takeWhile_cons, List.dropWhile_cons, h, if_pos rfl, List.length_cons,
        List.drop_succ_cons]
      exact ih
    · have h' : p c = false := by revert h; cases p c <;> simp
      simp [List.takeWhile_cons, List.dropWhile_cons, h']

theorem head?_dropWhile {p : Char → Bool} :
    ∀ {l : Text} {a : Char}, (l.dropWhile p).head? = some a → p a = false := by
  intro l
  induction l with
  | nil => intro a h; cases h
  | cons c rest ih =>
    intro a h
    by_cases hc : p c = true
    · rw [List.dropWhile_cons, if_pos hc] at h
      exact ih h
    · have hc' : p c = false := by revert hc; cases p c <;> simp
      rw [List.dropWhile_cons, hc'] at h
      simp only [Bool.false_eq_true, if_false, List.head?_cons, Option.some.injEq] at h
      rw [← h]
      exact hc'

theorem collapseNlGo_head? : ∀ cs : Text, (collapseNlGo 0 cs).head? = cs.head? := by
  intro cs
  cases cs with
  | nil => rfl
  | cons c rest =>
    simp only [collapseNlGo]
    split
    · next h => rw [List.head?_cons, List.head?_cons, h.1]
    · rfl

theorem head?_of_single_pre {a : Char} {l : Text} (h : [a] <+: l) : l.head? = some a := by
  cases l with
  | nil =>
    have := List.prefix_nil.mp h
    cases this
  | cons c rest =>
    rcases List.cons_prefix_cons.mp h with ⟨rfl, -⟩
    rfl

theorem take2_of_pre {a b : Char} {l : Text} (h : [a, b] <+: l) : l.take 2 = [a, b] :=
  (List.prefix_iff_eq_take.mp h).symm

theorem take2_shape {a b : Char} :
    ∀ {l : Text}, l.take 2 = [a, b] → ∃ t, l = a :: b :: t := by
  intro l
  cases l with
  | nil => intro h; cases h
  | cons x xs =>
    cases xs with
    | nil => intro h; cases h
    | cons y ys =>
      intro h
      rw [List.take_succ_cons, List.take_succ_cons, List.take_zero] at h
      rcases (List.cons.injEq _ _ _ _).mp h with ⟨rfl, h2⟩
      rcases (List.cons.injEq _ _ _ _).mp h2 with ⟨rfl, -⟩
      exact ⟨ys, rfl⟩

theorem collapseNlGo_take2 :
    ∀ cs : Text, (collapseNlGo 0 cs).take 2 = ['\n', '\n'] → cs.take 2 = ['\n', '\n'] := by
  intro cs
  cases cs with
  | nil => intro h; cases h
  | cons c rest =>
    simp only [collapseNlGo]
    split
    · next hc =>
      intro _
      have h1 : rest.take 1 = ['\n'] := by
        have := congrArg (List.take 1) hc.2
        rwa [List.take_take] at this
      rw [List.take_succ_cons, hc.1, h1]
    · next hc =>
      intro h
      rw [List.take_succ_cons] at h
      have hc1 : c = '\n' := (List.cons.injEq _ _ _ _).mp h |>.1
      have h1 : (collapseNlGo 0 rest).take 1 = ['\n'] := (List.cons.injEq _ _ _ _).mp h |>.2
      have hhead : (collapseNlGo 0 rest).head? = some '\n' := by
        cases hr : collapseNlGo 0 rest with
        | nil => rw [hr] at h1; cases h1
        | cons x xs =>
          rw [hr] at h1
          rw [List.take_succ_cons, List.take_zero] at h1
          have hx : x = '\n' := (List.cons.injEq _ _ _ _).mp h1 |>.1
          rw [hx]
          rfl
      rw [collapseNlGo_head?] at hhead
      cases hrest : rest with
      | nil => rw [hrest] at hhead; cases hhead
      | cons r rs =>
        rw [hrest] at hhead
        have hr : r = '\n' := by
          simp only [List.head?_cons, Option.some.injEq] at hhead
          exact hhead
        simp [hc1, hrest, hr]

theorem collapse_no_triple :
    ∀ (n : Nat) (cs : Text), cs.length ≤ n →
      ¬ (['\n', '\n', '\n'] <:+: collapseNlGo 0 cs) := by
  intro n
  induction n with
  | zero =>
    intro cs hn
    have : cs = [] := List.length_eq_zero.mp (Nat.le_zero.mp hn)
    subst this
    intro h
    have := List.eq_nil_of_infix_nil h
    cases this
  | succ n ih =>
    intro cs hn
    cases cs with
    | nil =>
      intro h
      have := List.eq_nil_of_infix_nil h
      cases this
    | cons c rest =>
      simp only [List.length_cons, Nat.succ_le_succ_iff] at hn
      simp only [collapseNlGo]
      split
      · next hc =>
        have hdd : List.drop
            (2 + (List.takeWhile (fun x => decide (x = '\n')) (List.drop 2 rest)).length) rest =
            (rest.drop 2).dropWhile (fun x => decide (x = '\n')) := by
          rw [← drop_length_takeWhile (fun x => decide (x = '\n')) (rest.drop 2),
            List.drop_drop]
        rw [collapseNlGo_skip, hdd]
        set out := collapseNlGo 0 ((rest.drop 2).dropWhile (fun x => decide (x = '\n'))) with hout
        have houthead : out.head? ≠ some '\n' := by
          rw [hout, collapseNlGo_head?]
          intro hh
          have := head?_dropWhile hh
          simp at this
        have hih : ¬ (['\n', '\n', '\n'] <:+: out) := by
          apply ih
          calc ((rest.drop 2).dropWhile (· = '\n')).length
              ≤ (rest.drop 2).length := (List.dropWhile_suffix _).length_le
            _ ≤ rest.length := by rw [List.length_drop]; omega
            _ ≤ n := hn
        intro hinf
        rcases List.infix_cons_iff.mp hinf with hpre | hinf2
        · rcases List.cons_prefix_cons.mp hpre with ⟨-, hpre1⟩
          rcases List.cons_prefix_cons.mp hpre1 with ⟨-, hpre2⟩
          exact houthead (head?_of_single_pre hpre2)
        · rcases List.infix_cons_iff.mp hinf2 with hpre | hinf3
          · rcases List.cons_prefix_cons.mp hpre with ⟨-, hpre1⟩
            have hpre2 : ['\n'] <+: out :=
              (List.prefix_append ['\n'] ['\n']).trans hpre1
            exact houthead (head?_of_single_pre hpre2)
          · exact hih hinf3
      · next hc =>
        have hih : ¬ (['\n', '\n', '\n'] <:+: collapseNlGo 0 rest) := ih rest hn
        intro hinf
        rcases List.infix_cons_iff.mp hinf with hpre | hinf2
        · rcases List.cons_prefix_cons.mp hpre with ⟨rfl, hpre1⟩
          have htake : (collapseNlGo 0 rest).take 2 = ['\n', '\n'] := take2_of_pre hpre1
          exact hc ⟨rfl, collapseNlGo_take2 rest htake⟩
        · exact hih hinf2

theorem collapseNl_id_of_no_triple :
    ∀ cs : Text, ¬ (['\n', '\n', '\n'] <:+: cs) → collapseNlGo 0 cs = cs := by
  intro cs
  induction cs with
  | nil => intro _; rfl
  | cons c rest ih =>
    intro h
    simp only [collapseNlGo]
    split
    · next hc =>
      exfalso
      apply h
      apply List.IsPrefix.isInfix
      obtain ⟨t, ht⟩ := take2_shape hc.2
      rw [hc.1, ht]
      exact ⟨t, rfl⟩
    · next hc =>
      have hrest : ¬ (['\n', '\n', '\n'] <:+: rest) := by
        intro hr
        exact h (List.infix_cons hr)
      rw [ih hrest]

theorem dropWhile_idem (p : Char → Bool) :
    ∀ l : Text, (l.dropWhile p).dropWhile p = l.dropWhile p := by
  intro l
  induction l with
  | nil => rfl
  | cons c rest ih =>
    by_cases h : p c = true
    · simp only [List.dropWhile_cons, h, if_pos rfl]
      exact ih
    · have h' : p c = false := by revert h; cases p c <;> simp
      simp [List.dropWhile_cons, h']

theorem rtrim_pre (l : Text) : rtrim l <+: l := by
  have h : (l.reverse.dropWhile isWs) <:+ l.reverse := List.dropWhile_suffix isWs
  have h2 : (rtrim l).reverse <:+ l.reverse := by
    unfold rtrim
    rw [List.reverse_reverse]
    exact h
  exact List.reverse_suffix.mp h2

theorem rtrim_idem (l : Text) : rtrim (rtrim l) = rtrim l := by
  unfold rtrim
  rw [List.reverse_reverse, dropWhile_idem]

theorem ltrim_rtrim_ltrim (y : Text) : ltrim (rtrim (ltrim y)) = rtrim (ltrim y) := by
  cases h : rtrim (ltrim y) with
  | nil => rfl
  | cons c cr =>
    have hpre : rtrim (ltrim y) <+: ltrim y := rtrim_pre (ltrim y)
    rw [h] at hpre
    have hhead : (ltrim y).head? = some c := head?_of_single_pre
      ((List.prefix_append [c] cr).trans hpre)
    have hws : isWs c = false := head?_dropWhile hhead
    exact ltrim_cons_of_not_ws hws cr

theorem stripWs_idem (y : Text) : stripWs (stripWs y) = stripWs y := by
  show rtrim (ltrim (rtrim (ltrim y))) = rtrim (ltrim y)
  rw [ltrim_rtrim_ltrim, rtrim_idem]

theorem stripWs_within (y : Text) : stripWs y <:+: y := by
  have h1 : rtrim (ltrim y) <+: ltrim y := rtrim_pre (ltrim y)
  have h2 : ltrim y <:+ y := List.dropWhile_suffix isWs
  exact h1.isInfix.trans h2.isInfix

/-- C7 amended: whole-text sanitization is idempotent on every input whose
sanitized form is free of all strip patterns (then the substitutions fix
it, and the newline collapse and trim are idempotent); in general a
substitution can create a fresh pattern occurrence and idempotence fails,
as the counterexample shows. -/
theorem c7_sanitize_idempotent_when_clean (stops : List Text) (x : Text)
    (hclean : ∀ p ∈ strip_patterns stops, hasPatMatch p (sanitize stops x) = false) :
    sanitize stops (sanitize stops x) = sanitize stops x := by
  have hfold := foldl_subPat_id (strip_patterns stops) (sanitize stops x) hclean
  show stripWs (collapseNl ((strip_patterns stops).foldl (fun acc p => subPat p acc)
      (sanitize stops x))) = sanitize stops x
  rw [hfold]
  have hnt : ¬ (['\n', '\n', '\n'] <:+: sanitize stops x) := by
    intro h
    have h2 : (['\n', '\n', '\n'] : Text) <:+:
        collapseNl ((strip_patterns stops).foldl (fun acc p => subPat p acc) x) :=
      h.trans (stripWs_within (collapseNl ((strip_patterns stops).foldl
        (fun acc p => subPat p acc) x)))
    exact collapse_no_triple _ _ (le_refl _) h2
  rw [show collapseNl (sanitize stops x) = sanitize stops x from
    collapseNl_id_of_no_triple _ hnt]
  exact stripWs_idem (collapseNl ((strip_patterns stops).foldl
    (fun acc p => subPat p acc) x))

/-- Witness for C7 on a clean input. -/
theorem c7_witness :
    (∀ p ∈ strip_patterns [], hasPatMatch p (sanitize [] (str "hello")) = false) ∧
    sanitize [] (sanitize [] (str "hello")) = sanitize [] (str "hello") :=
  ⟨by decide, c7_sanitize_idempotent_when_clean [] (str "hello") (by decide)⟩

/-- Witness for C3 on a small conversation that fits the budget. -/
theorem c3_witness :
    ((([⟨str "system", str "be nice"⟩, ⟨str "user", str "hello"⟩] : List Message).filter
        (fun m => ¬ m.role = str "system")).getLast? = some ⟨str "user", str "hello"⟩) ∧
    ((((([⟨str "system", str "be nice"⟩, ⟨str "user", str "hello"⟩] : List Message).filter
        (fun m => m.role = str "system")).map msgCost).sum : Int) < 100) ∧
    (⟨str "user", str "hello"⟩ : Message) ∈
      estimate_trimmed_messages
        [⟨str "system", str "be nice"⟩, ⟨str "user", str "hello"⟩] 100 :=
  ⟨by decide, by decide,
   (c3_retention [⟨str "system", str "be nice"⟩, ⟨str "user", str "hello"⟩] 100
      ⟨str "user", str "hello"⟩ (by decide) (by decide)).2⟩

/-! ## Concrete evaluation checks of the embedded definitions -/

example : fmtContent (str "[a \x7bcontent\x7d b]") (str "X") = str "[a X b]" := by decide

example : beforeContent (str "ab\x7bcontent\x7dcd") = str "ab" := by decide

example :
    llamaT.build_prompt [⟨str "user", str "Hello"⟩] =
      str "<s>[INST] Hello [/INST]" := by decide

example :
    build_prompt_checked llamaT [⟨str "user", str "Hello"⟩] = .error .bosLeak := by decide

example :
    build_prompt_checked qwenT [⟨str "user", str "Hi"⟩] =
      .ok (str "<|im_start|>user\nHi<|im_end|>\n<|im_start|>assistant\n") := by decide

example :
    estimate_trimmed_messages
      [⟨str "system", str "be nice"⟩, ⟨str "user", str "hello"⟩] 100 =
    [⟨str "system", str "be nice"⟩, ⟨str "user", str "hello"⟩] := by decide

example :
    estimate_trimmed_messages
      [⟨str "system", str "be nice"⟩, ⟨str "user", str "hello"⟩] 5 =
    [⟨str "system", str "be nice"⟩] := by decide

example : runLoads 2 ["A", "B", "C"] = ["B", "C"] := by decide

example : runLoads 2 ["A", "B", "A", "C"] = ["A", "C"] := by decide

example : runLoads 0 ["A"] = [] := by decide

example :
    stream_tokens_as_sse ["a", "b"] (some "boom") none =
      [{ done := false, token := some "a" }, { done := false, token := some "b" },
       { done := true, error := some "boom" }] := by decide

example : subPat (.lit (str "<s>")) (str "a<s>b<S>c") = str "abc" := by decide

example : subPat .dupRole (str "assistant assistant hello") = str "assistant hello" := by decide

example : subPat .leadingRole (str "  user: hi") = str "hi" := by decide

example : subPat .hashRole (str "### Instruction:\nTest") = str "Test" := by decide

example : fullmatchPat .imStart (str "<|im_start|>user ") = true := by decide

example : hasPatMatch (.lit (str "</s>")) (str "ab</s>") = true := by decide

example : hasPatMatch (.lit (str "</s>")) (str "ab</ s>") = false := by decide

example : collapseNl (str "a\n\n\n\n\nb\n\nc") = str "a\n\nb\n\nc" := by decide

example : sanitize [str "</s>"] (str "Hello world</s>") = str "Hello world" := by decide

example :
    sanitize [str "</s>"] (str "<s>[INST] Question [/INST] Answer</s>") =
      str "Question  Answer" := by decide

example :
    runStream [str "</s>"] []
        [str "Hel", str "lo", str " ", str "</", str "s>", str " ignored"] =
      ([str "Hel", str "lo", str " ", str "</"],
       [str "Hel", str "lo", str " ", str "</"], true) := by decide

example :
    (runStream [str "</s>"] [] [str "</", str "<s>s>"]).1 =
      [str "</", str "s>"] := by decide

example :
    sanitize [str "</s>"] (sanitize [str "</s>"] (str "<s<s>>a")) = str "a" ∧
    sanitize [str "</s>"] (str "<s<s>>a") = str "<s>a" := by decide
